import Mathlib

/-!
Shallow embedding of src/scripts/md-to-docx.py, a line-oriented
Markdown-to-DOCX converter.  The scanner walks the input lines with an
index, a boolean code-fence flag and an accumulated buffer of code lines,
and appends block elements (headings, paragraphs of runs, code blocks,
tables) to an output document.  Here the document is a list of `Element`s,
the per-iteration body of the Python `while` loop is `step`, and `scan`
iterates it (via the fuel-indexed `scanF`, so that concrete inputs
evaluate by kernel reduction).
-/

/-- Python whitespace set used by `str.strip` / `str.rstrip` (ASCII part). -/
def pySpace (c : Char) : Bool :=
  c = ' ' || c = '\t' || c = '\n' || c = '\r' || c = '\x0B' || c = '\x0C'

/-- Python `str.rstrip()`: drop trailing whitespace. -/
def pyRstrip (s : String) : String :=
  ⟨(s.data.reverse.dropWhile pySpace).reverse⟩

/-- Python `str.strip()`: drop leading and trailing whitespace. -/
def pyStrip (s : String) : String :=
  ⟨((s.data.dropWhile pySpace).reverse.dropWhile pySpace).reverse⟩

/-- Python `s.startswith(pre)` (character-wise prefix test). -/
def pyStartsWith (s pre : String) : Bool :=
  pre.data.isPrefixOf s.data

/-- Python `c in s` for a single character `c`. -/
def pyContainsChar (s : String) (c : Char) : Bool :=
  s.data.contains c

/-- Python `s[n:]` (slicing by code points). -/
def pyDrop (s : String) (n : Nat) : String :=
  ⟨s.data.drop n⟩

/-- Split a character list at every occurrence of a separator character,
keeping empty segments, as Python `str.split(sep)` does. -/
def splitOnChar (sep : Char) : List Char → List (List Char)
  | [] => [[]]
  | c :: rest =>
    if c = sep then [] :: splitOnChar sep rest
    else
      match splitOnChar sep rest with
      | [] => [[c]]
      | seg :: segs => (c :: seg) :: segs

/-- Python `s.split('|')` on a string. -/
def pySplitPipe (s : String) : List String :=
  (splitOnChar '|' s.data).map (fun cs => ⟨cs⟩)

/-- The cell texts of a table line: `[cell.strip() for cell in line.split('|')[1:-1]]`
(md-to-docx.py lines 125 and 147). -/
def cellsOf (s : String) : List String :=
  (((pySplitPipe s).drop 1).dropLast).map pyStrip

/-- Python `'\n'.join(lines)` (md-to-docx.py line 78). -/
def joinNl : List String → String
  | [] => ""
  | [s] => s
  | s :: rest => s ++ "\n" ++ joinNl rest

/-- Python `re.match(r'^\d+\.', line)` viewed as a boolean: one or more
digits at the start, immediately followed by a period (md-to-docx.py
line 109). -/
def startsDigitsDot (s : String) : Bool :=
  let ds := s.data.takeWhile Char.isDigit
  !ds.isEmpty && ((s.data.drop ds.length).head? == some '.')

/-- Substring containment on character lists, Python `pat in s`. -/
def containsSeq (pat : List Char) : List Char → Bool
  | [] => pat.isEmpty
  | c :: rest => pat.isPrefixOf (c :: rest) || containsSeq pat rest

/-- Python `'**' in line` (md-to-docx.py line 113). -/
def hasBoldMarker (s : String) : Bool :=
  containsSeq "**".data s.data

/-- Attempt to match the regex `\*\*([^*]+)\*\*` (md-to-docx.py line 115)
at the start of a character list, returning the captured group and the
remainder after the match.  Because the captured class excludes the
asterisk, backtracking never helps: a match exists precisely when the
maximal non-asterisk run after the opening pair is nonempty and is
immediately followed by two asterisks. -/
def matchBoldAt : List Char → Option (List Char × List Char)
  | '*' :: '*' :: rest2 =>
    (match rest2.takeWhile (fun ch => ch != '*'),
           rest2.drop (rest2.takeWhile (fun ch => ch != '*')).length with
     | _ :: _, '*' :: '*' :: tail => some (rest2.takeWhile (fun ch => ch != '*'), tail)
     | _, _ => none)
  | _ => none

/-- After a successful match at the head, the remainder is strictly shorter. -/
theorem matchBoldAt_length_lt :
    ∀ (l cap tail : List Char), matchBoldAt l = some (cap, tail) → tail.length < l.length := by
  intro l cap tail h
  unfold matchBoldAt at h
  split at h
  · rename_i rest2
    split at h
    · rename_i x xs tail0 htw hdrop
      simp only [Option.some.injEq, Prod.mk.injEq] at h
      obtain ⟨-, ht⟩ := h
      subst ht
      have hlen := congrArg List.length hdrop
      simp only [List.length_drop, List.length_cons] at hlen
      have hk : (rest2.takeWhile (fun ch => ch != '*')).length ≤ rest2.length :=
        (List.takeWhile_sublist _).length_le
      simp only [List.length_cons]
      omega
    · exact absurd h (by simp)
  · exact absurd h (by simp)

/-- Locate the first match of `\*\*([^*]+)\*\*` anywhere in the list
(left to right, as `re` does): the text before the match, the captured
group, and the text after the match. -/
def findBold : List Char → Option (List Char × List Char × List Char)
  | [] => none
  | c :: rest =>
    match matchBoldAt (c :: rest) with
    | some (cap, tail) => some ([], cap, tail)
    | none => (findBold rest).map (fun t => (c :: t.1, t.2.1, t.2.2))

/-- After locating a match the remainder is strictly shorter. -/
theorem findBold_length_lt :
    ∀ (l p r t : List Char), findBold l = some (p, r, t) → t.length < l.length := by
  intro l
  induction l with
  | nil => intro p r t h; simp [findBold] at h
  | cons c rest ih =>
    intro p r t h
    simp only [findBold] at h
    split at h
    · rename_i cap tail hm
      simp only [Option.some.injEq, Prod.mk.injEq] at h
      obtain ⟨-, -, ht⟩ := h
      subst ht
      exact matchBoldAt_length_lt _ _ _ hm
    · rename_i hm
      simp only [Option.map_eq_some'] at h
      obtain ⟨⟨p0, r0, t0⟩, hfb, heq⟩ := h
      simp only [Prod.mk.injEq] at heq
      obtain ⟨-, -, ht⟩ := heq
      subst ht
      have := ih p0 r0 t0 hfb
      simp only [List.length_cons]
      omega

/-- Fuel-indexed body of `boldSplit`; with fuel at least the length of
the list the fuel never runs out. -/
def boldSplitF : Nat → List Char → List (List Char)
  | 0, l => [l]
  | fuel + 1, l =>
    match findBold l with
    | none => [l]
    | some (pre, cap, rest) => pre :: cap :: boldSplitF fuel rest

/-- Python `re.split(r'\*\*([^*]+)\*\*', line)`: the texts between the
matches, interleaved with the captured groups (md-to-docx.py line 115). -/
def boldSplit (l : List Char) : List (List Char) :=
  boldSplitF l.length l

/-- Any sufficient amount of fuel computes the same split. -/
theorem boldSplitF_congr :
    ∀ (f1 f2 : Nat) (l : List Char),
      l.length ≤ f1 → l.length ≤ f2 → boldSplitF f1 l = boldSplitF f2 l := by
  intro f1
  induction f1 with
  | zero =>
    intro f2 l h1 h2
    have : l = [] := List.length_eq_zero.mp (Nat.le_zero.mp h1)
    subst this
    cases f2 <;> simp [boldSplitF, findBold]
  | succ f ih =>
    intro f2 l h1 h2
    match f2 with
    | 0 =>
      have : l = [] := List.length_eq_zero.mp (Nat.le_zero.mp h2)
      subst this
      simp [boldSplitF, findBold]
    | f2' + 1 =>
      simp only [boldSplitF]
      cases hfb : findBold l with
      | none => rfl
      | some t =>
        obtain ⟨pre, cap, rest⟩ := t
        have hlt := findBold_length_lt l pre cap rest hfb
        simp only []
        congr 1
        congr 1
        exact ih f2' rest (by omega) (by omega)

/-- A run of text in an output paragraph, with its bold flag. -/
structure Run where
  text : String
  bold : Bool
deriving DecidableEq, Repr

/-- A block element appended to the output document.  `para []` is the
empty paragraph produced by `doc.add_paragraph()`; a table records its
column count, header cell texts, the fact that the header runs were made
bold, and its data rows. -/
inductive Element where
  | heading (text : String) (level : Nat)
  | para (runs : List Run)
  | codeBlock (content : String)
  | table (cols : Nat) (header : List String) (headerBold : Bool) (rows : List (List String))
deriving DecidableEq, Repr

/-- The runs emitted for an inline-bold line: one run per segment of the
regex split, odd-indexed segments bold (md-to-docx.py lines 115-121). -/
def boldRuns (s : String) : List Run :=
  (boldSplit s.data).enum.map (fun p => ⟨⟨p.2⟩, p.1 % 2 == 1⟩)

/-- Whether a raw line contains a pipe: the guard of the data-row loop,
`'|' in lines[i]` (md-to-docx.py line 146). -/
def hasPipe (s : String) : Bool :=
  pyContainsChar s '|'

/-- Lookahead `i + 1 < len(lines) and lines[i + 1].startswith('|---')`
(md-to-docx.py line 128), with the remaining lines as the list. -/
def sepNext : List String → Bool
  | [] => false
  | n :: _ => pyStartsWith n "|---"

/-- The data rows of a confirmed table: consume the contiguous
pipe-containing lines, keeping only rows whose cell count matches the
header (md-to-docx.py lines 146-152). -/
def tableRows (n : Nat) (ls : List String) : List (List String) :=
  ((ls.takeWhile hasPipe).map cellsOf).filter (fun cs => cs.length == n)

/-- The lines left after table consumption stops at the first line
without a pipe. -/
def tableRest (ls : List String) : List String :=
  ls.dropWhile hasPipe

/-- Body of one iteration of the scanner loop, phrased on the already
rstripped current line (`line = lines[i].rstrip()`, md-to-docx.py line
72): the if/elif classification chain of md-to-docx.py lines 74-159.
Returns the elements appended during this iteration and the new fence
flag, code buffer and remaining lines. -/
def stepLine (inCode : Bool) (buf : List String) (line : String) (rest : List String) :
    List Element × Bool × List String × List String :=
  if pyStartsWith line "```" then
    if inCode then ([Element.codeBlock (joinNl buf)], false, [], rest)
    else ([], true, buf, rest)
  else if inCode then ([], true, buf ++ [line], rest)
  else if pyStartsWith line "# " then ([Element.heading (pyDrop line 2) 1], inCode, buf, rest)
  else if pyStartsWith line "## " then ([Element.heading (pyDrop line 3) 2], inCode, buf, rest)
  else if pyStartsWith line "### " then ([Element.heading (pyDrop line 4) 3], inCode, buf, rest)
  else if pyStartsWith line "#### " then ([Element.heading (pyDrop line 5) 4], inCode, buf, rest)
  else if pyStartsWith line "---" then ([Element.para []], inCode, buf, rest)
  else if pyStartsWith line "- " || pyStartsWith line "* " then
    ([Element.para [⟨"• " ++ pyDrop line 2, false⟩]], inCode, buf, rest)
  else if startsDigitsDot line then ([Element.para [⟨line, false⟩]], inCode, buf, rest)
  else if hasBoldMarker line then ([Element.para (boldRuns line)], inCode, buf, rest)
  else if pyContainsChar line '|' && !pyStartsWith line "|---" then
    if !(cellsOf line).isEmpty && sepNext rest then
      ([Element.table (cellsOf line).length (cellsOf line) true
          (tableRows (cellsOf line).length (rest.drop 1))],
       inCode, buf, tableRest (rest.drop 1))
    else ([], inCode, buf, rest)
  else if !(pyStrip line).isEmpty then ([Element.para [⟨line, false⟩]], inCode, buf, rest)
  else ([], inCode, buf, rest)

/-- One iteration of the scanner loop (md-to-docx.py lines 71-159) on the
raw current line. -/
def step (inCode : Bool) (buf : List String) (l : String) (rest : List String) :
    List Element × Bool × List String × List String :=
  stepLine inCode buf (pyRstrip l) rest

/-- A step never manufactures lines: the remaining lines after a step are
at most the lines that were remaining before it. -/
theorem step_rest_le (inCode : Bool) (buf : List String) (l : String) (rest : List String) :
    (step inCode buf l rest).2.2.2.length ≤ rest.length := by
  have hdw : (tableRest (rest.drop 1)).length ≤ rest.length := by
    have h1 : (tableRest (rest.drop 1)).length ≤ (rest.drop 1).length :=
      (List.dropWhile_sublist _).length_le
    have h2 : (rest.drop 1).length ≤ rest.length := by
      simp [List.length_drop]
    exact Nat.le_trans h1 h2
  unfold step stepLine
  cases h1 : pyStartsWith (pyRstrip l) "```" with
  | true => cases inCode <;> exact Nat.le_refl _
  | false =>
  cases inCode with
  | true => exact Nat.le_refl _
  | false =>
  cases h2 : pyStartsWith (pyRstrip l) "# " with
  | true => exact Nat.le_refl _
  | false =>
  cases h3 : pyStartsWith (pyRstrip l) "## " with
  | true => exact Nat.le_refl _
  | false =>
  cases h4 : pyStartsWith (pyRstrip l) "### " with
  | true => exact Nat.le_refl _
  | false =>
  cases h5 : pyStartsWith (pyRstrip l) "#### " with
  | true => exact Nat.le_refl _
  | false =>
  cases h6 : pyStartsWith (pyRstrip l) "---" with
  | true => exact Nat.le_refl _
  | false =>
  cases h7 : pyStartsWith (pyRstrip l) "- " || pyStartsWith (pyRstrip l) "* " with
  | true => exact Nat.le_refl _
  | false =>
  cases h8 : startsDigitsDot (pyRstrip l) with
  | true => exact Nat.le_refl _
  | false =>
  cases h9 : hasBoldMarker (pyRstrip l) with
  | true => exact Nat.le_refl _
  | false =>
  cases h10 : pyContainsChar (pyRstrip l) '|' && !pyStartsWith (pyRstrip l) "|---" with
  | true =>
    cases h11 : !(cellsOf (pyRstrip l)).isEmpty && sepNext rest with
    | true => exact hdw
    | false => exact Nat.le_refl _
  | false =>
  cases h12 : !(pyStrip (pyRstrip l)).isEmpty with
  | true => exact Nat.le_refl _
  | false => exact Nat.le_refl _

/-- Fuel-indexed iteration of `step`.  With fuel at least the number of
lines the fuel never runs out, so `scan` below is total and still
evaluates by kernel reduction. -/
def scanF : Nat → Bool → List String → List String → List Element
  | 0, _, _, _ => []
  | _ + 1, _, _, [] => []
  | fuel + 1, inCode, buf, l :: rest =>
    (step inCode buf l rest).1 ++
      scanF fuel (step inCode buf l rest).2.1 (step inCode buf l rest).2.2.1
        (step inCode buf l rest).2.2.2

/-- The scanner: the elements appended by the Python `while` loop when it
starts with fence flag `inCode`, code buffer `buf` and remaining lines
`ls` (md-to-docx.py lines 67-159). -/
def scan (inCode : Bool) (buf : List String) (ls : List String) : List Element :=
  scanF ls.length inCode buf ls

/-- Any sufficient amount of fuel computes the same result. -/
theorem scanF_congr :
    ∀ (f1 f2 : Nat) (inCode : Bool) (buf ls : List String),
      ls.length ≤ f1 → ls.length ≤ f2 → scanF f1 inCode buf ls = scanF f2 inCode buf ls := by
  intro f1
  induction f1 with
  | zero =>
    intro f2 inCode buf ls h1 h2
    have : ls = [] := List.length_eq_zero.mp (Nat.le_zero.mp h1)
    subst this
    cases f2 <;> simp [scanF]
  | succ f ih =>
    intro f2 inCode buf ls h1 h2
    match ls with
    | [] => cases f2 <;> simp [scanF]
    | l :: rest =>
      match f2 with
      | 0 => simp at h2
      | f2' + 1 =>
        simp only [scanF]
        congr 1
        have hle := step_rest_le inCode buf l rest
        simp only [List.length_cons] at h1 h2
        exact ih f2' _ _ _ (by omega) (by omega)

/-- Scanning no lines appends nothing. -/
theorem scan_nil (inCode : Bool) (buf : List String) : scan inCode buf [] = [] := rfl

/-- Unfolding lemma: one loop iteration followed by the rest of the scan. -/
theorem scan_cons (inCode : Bool) (buf : List String) (l : String) (rest : List String) :
    scan inCode buf (l :: rest) =
      (step inCode buf l rest).1 ++
        scan (step inCode buf l rest).2.1 (step inCode buf l rest).2.2.1
          (step inCode buf l rest).2.2.2 := by
  unfold scan
  simp only [List.length_cons, scanF]
  congr 1
  exact scanF_congr rest.length (step inCode buf l rest).2.2.2.length _ _ _
    (step_rest_le inCode buf l rest) (Nat.le_refl _)

/-! Branch lemmas: one scanner iteration under the hypotheses that make
each classification rule fire. -/

/-- While the fence flag is set, a non-delimiter line is appended
(rstripped) to the code buffer and nothing is emitted; when a closing
delimiter arrives, the buffer is flushed as one code block and cleared
(md-to-docx.py lines 75-90). -/
theorem scan_fence_append (g : String) (rest : List String)
    (hg : pyStartsWith (pyRstrip g) "```" = true) :
    ∀ (Ls buf : List String),
      (∀ x ∈ Ls, pyStartsWith (pyRstrip x) "```" = false) →
      scan true buf (Ls ++ g :: rest) =
        Element.codeBlock (joinNl (buf ++ Ls.map pyRstrip)) :: scan false [] rest := by
  intro Ls
  induction Ls with
  | nil =>
    intro buf hLs
    rw [List.nil_append, scan_cons]
    unfold step stepLine
    simp [hg]
  | cons x Ls ih =>
    intro buf hLs
    have hx : pyStartsWith (pyRstrip x) "```" = false := hLs x (by simp)
    rw [List.cons_append, scan_cons]
    unfold step stepLine
    simp only [hx, Bool.false_eq_true, if_false, if_true, List.nil_append]
    rw [ih (buf ++ [pyRstrip x]) (fun y hy => hLs y (by simp [hy]))]
    simp

/-- While the fence flag is set, if no closing delimiter ever arrives the
remaining lines are absorbed into the buffer and nothing is emitted
(md-to-docx.py lines 87-90 followed by loop exit). -/
theorem scan_fence_no_close :
    ∀ (Ls buf : List String),
      (∀ x ∈ Ls, pyStartsWith (pyRstrip x) "```" = false) →
      scan true buf Ls = [] := by
  intro Ls
  induction Ls with
  | nil => intro buf hLs; exact scan_nil true buf
  | cons x Ls ih =>
    intro buf hLs
    have hx : pyStartsWith (pyRstrip x) "```" = false := hLs x (by simp)
    rw [scan_cons]
    unfold step stepLine
    simp only [hx, Bool.false_eq_true, if_false, if_true, List.nil_append]
    exact ih (buf ++ [pyRstrip x]) (fun y hy => hLs y (by simp [hy]))

/-- The table branch (md-to-docx.py lines 124-153): a line that reaches
the table rule with nonempty cells and a separator lookahead emits one
table element (bold header, data rows filtered to the header width) and
resumes scanning at the first subsequent line without a pipe. -/
theorem scan_table_branch (buf : List String) (l sep : String) (rest : List String)
    (h1 : pyStartsWith (pyRstrip l) "```" = false)
    (h2 : pyStartsWith (pyRstrip l) "# " = false)
    (h3 : pyStartsWith (pyRstrip l) "## " = false)
    (h4 : pyStartsWith (pyRstrip l) "### " = false)
    (h5 : pyStartsWith (pyRstrip l) "#### " = false)
    (h6 : pyStartsWith (pyRstrip l) "---" = false)
    (h7 : pyStartsWith (pyRstrip l) "- " = false)
    (h8 : pyStartsWith (pyRstrip l) "* " = false)
    (h9 : startsDigitsDot (pyRstrip l) = false)
    (h10 : hasBoldMarker (pyRstrip l) = false)
    (h11 : pyContainsChar (pyRstrip l) '|' = true)
    (h12 : pyStartsWith (pyRstrip l) "|---" = false)
    (h13 : (cellsOf (pyRstrip l)).isEmpty = false)
    (h14 : pyStartsWith sep "|---" = true) :
    scan false buf (l :: sep :: rest) =
      Element.table (cellsOf (pyRstrip l)).length (cellsOf (pyRstrip l)) true
          (tableRows (cellsOf (pyRstrip l)).length rest)
        :: scan false buf (tableRest rest) := by
  rw [scan_cons]
  unfold step stepLine
  simp [h1, h2, h3, h4, h5, h6, h7, h8, h9, h10, h11, h12, h13, h14, sepNext]

/-- Whether an element is a table (used to state the absence of tables). -/
def isTable : Element → Bool
  | Element.table _ _ _ _ => true
  | _ => false

/-- C1 counterexample: the line `"# A | B | C"` contains a pipe, does not
start with `"|---"`, has a nonempty cell list, and its next line starts
with `"|---"`, yet the scanner emits a heading and a plain paragraph and
no table element at all, because the heading rule matched first.  The
claim as stated is therefore false at this input. -/
theorem tableRule_preempted_by_heading_cex :
    pyContainsChar "# A | B | C" '|' = true ∧
    pyStartsWith "# A | B | C" "|---" = false ∧
    cellsOf "# A | B | C" ≠ [] ∧
    pyStartsWith "|---|---|" "|---" = true ∧
    scan false [] ["# A | B | C", "|---|---|"] =
      [Element.heading "A | B | C" 1, Element.para [⟨"|---|---|", false⟩]] ∧
    (scan false [] ["# A | B | C", "|---|---|"]).filter isTable = [] := by
  decide

/-- C1 (amended): for an input line that reaches the table rule (not
inside a code fence and matched by no earlier classification rule),
containing a pipe, not starting with `"|---"`, with a non-empty cell
list, and whose immediately following line starts with `"|---"`, the
scanner emits exactly one table element whose column count equals the
number of header cells (the whitespace-trimmed segments between the
first and last pipe), with a bold header row carrying those cell texts;
it consumes the separator line and every subsequent contiguous line
containing a pipe as a data row (rows of matching width), and stops
consuming at the first line without a pipe. -/
theorem tableRule_confirmed_behavior (buf : List String) (l sep : String) (rest : List String)
    (h1 : pyStartsWith (pyRstrip l) "```" = false)
    (h2 : pyStartsWith (pyRstrip l) "# " = false)
    (h3 : pyStartsWith (pyRstrip l) "## " = false)
    (h4 : pyStartsWith (pyRstrip l) "### " = false)
    (h5 : pyStartsWith (pyRstrip l) "#### " = false)
    (h6 : pyStartsWith (pyRstrip l) "---" = false)
    (h7 : pyStartsWith (pyRstrip l) "- " = false)
    (h8 : pyStartsWith (pyRstrip l) "* " = false)
    (h9 : startsDigitsDot (pyRstrip l) = false)
    (h10 : hasBoldMarker (pyRstrip l) = false)
    (h11 : pyContainsChar (pyRstrip l) '|' = true)
    (h12 : pyStartsWith (pyRstrip l) "|---" = false)
    (h13 : (cellsOf (pyRstrip l)).isEmpty = false)
    (h14 : pyStartsWith sep "|---" = true) :
    scan false buf (l :: sep :: rest) =
      Element.table (cellsOf (pyRstrip l)).length (cellsOf (pyRstrip l)) true
          (tableRows (cellsOf (pyRstrip l)).length rest)
        :: scan false buf (tableRest rest) :=
  scan_table_branch buf l sep rest h1 h2 h3 h4 h5 h6 h7 h8 h9 h10 h11 h12 h13 h14

/-- C1 witness: the three-line table of the claim produces one table with
2 columns, bold header `["A", "B"]` and one data row `["1", "2"]`. -/
theorem tableRule_confirmed_behavior_wit :
    scan false [] ["| A | B |", "|---|---|", "| 1 | 2 |"] =
      [Element.table 2 ["A", "B"] true [["1", "2"]]] := by
  have h := tableRule_confirmed_behavior [] "| A | B |" "|---|---|" ["| 1 | 2 |"]
    (by decide) (by decide) (by decide) (by decide) (by decide) (by decide) (by decide)
    (by decide) (by decide) (by decide) (by decide) (by decide) (by decide) (by decide)
  rw [h]
  decide

/-- C2: a line that reaches the inline-bold rule (not inside a code
fence, matched by no earlier classification rule, containing `"**"`) is
emitted as exactly one paragraph whose runs are the segments of the
regex split on paired `"**"` delimiters, in original order, odd-indexed
segments bold and even-indexed segments unstyled. -/
theorem boldRule_splits_into_runs (buf : List String) (l : String) (rest : List String)
    (h1 : pyStartsWith (pyRstrip l) "```" = false)
    (h2 : pyStartsWith (pyRstrip l) "# " = false)
    (h3 : pyStartsWith (pyRstrip l) "## " = false)
    (h4 : pyStartsWith (pyRstrip l) "### " = false)
    (h5 : pyStartsWith (pyRstrip l) "#### " = false)
    (h6 : pyStartsWith (pyRstrip l) "---" = false)
    (h7 : pyStartsWith (pyRstrip l) "- " = false)
    (h8 : pyStartsWith (pyRstrip l) "* " = false)
    (h9 : startsDigitsDot (pyRstrip l) = false)
    (hb : hasBoldMarker (pyRstrip l) = true) :
    scan false buf (l :: rest) = Element.para (boldRuns (pyRstrip l)) :: scan false buf rest := by
  rw [scan_cons]
  unfold step stepLine
  simp [h1, h2, h3, h4, h5, h6, h7, h8, h9, hb]

/-- C2 witness: the line of the claim yields three runs, `"Some "`
unstyled, `"bold"` bold, `" text"` unstyled. -/
theorem boldRule_splits_into_runs_wit :
    scan false [] ["Some **bold** text"] =
      [Element.para [⟨"Some ", false⟩, ⟨"bold", true⟩, ⟨" text", false⟩]] := by
  have h := boldRule_splits_into_runs [] "Some **bold** text" []
    (by decide) (by decide) (by decide) (by decide) (by decide) (by decide) (by decide)
    (by decide) (by decide) (by decide)
  rw [h]
  decide

/-- C3: an opening fence line, inner lines none of which starts with a
fence delimiter, and a closing fence line produce exactly one code-block
element whose content is the inner lines (rstripped) joined by newlines;
no paragraph is emitted for the inner lines and the buffer is cleared on
the closing toggle (the continuation scans with an empty buffer). -/
theorem fencedBlock_single_codeBlock (f g : String) (Ls rest : List String)
    (hf : pyStartsWith (pyRstrip f) "```" = true)
    (hLs : ∀ x ∈ Ls, pyStartsWith (pyRstrip x) "```" = false)
    (hg : pyStartsWith (pyRstrip g) "```" = true) :
    scan false [] (f :: (Ls ++ g :: rest)) =
      Element.codeBlock (joinNl (Ls.map pyRstrip)) :: scan false [] rest := by
  rw [scan_cons]
  unfold step stepLine
  simp only [hf, if_true, Bool.false_eq_true, if_false, List.nil_append]
  rw [scan_fence_append g rest hg Ls [] hLs]
  simp

/-- C3 witness: a fence enclosing `line1` and `line2` yields one
code-block element with content `"line1\nline2"` and nothing else. -/
theorem fencedBlock_single_codeBlock_wit :
    scan false [] ["```", "line1", "line2", "```"] = [Element.codeBlock "line1\nline2"] := by
  have h := fencedBlock_single_codeBlock "```" "```" ["line1", "line2"] []
    (by decide) (by decide) (by decide)
  rw [show (["```", "line1", "line2", "```"] : List String) =
        "```" :: (["line1", "line2"] ++ "```" :: []) from rfl, h]
  decide

/-- C4: during table data-row consumption, a consumed line whose cell
count differs from the header width is silently skipped: the emitted
table contains the header and exactly the matching-width rows, in order,
and the mismatched row is not appended (and no error is possible, the
scanner being a total function). -/
theorem tableRow_mismatch_skipped (buf : List String) (l sep bad : String)
    (pre post rest : List String)
    (h1 : pyStartsWith (pyRstrip l) "```" = false)
    (h2 : pyStartsWith (pyRstrip l) "# " = false)
    (h3 : pyStartsWith (pyRstrip l) "## " = false)
    (h4 : pyStartsWith (pyRstrip l) "### " = false)
    (h5 : pyStartsWith (pyRstrip l) "#### " = false)
    (h6 : pyStartsWith (pyRstrip l) "---" = false)
    (h7 : pyStartsWith (pyRstrip l) "- " = false)
    (h8 : pyStartsWith (pyRstrip l) "* " = false)
    (h9 : startsDigitsDot (pyRstrip l) = false)
    (h10 : hasBoldMarker (pyRstrip l) = false)
    (h11 : pyContainsChar (pyRstrip l) '|' = true)
    (h12 : pyStartsWith (pyRstrip l) "|---" = false)
    (h13 : (cellsOf (pyRstrip l)).isEmpty = false)
    (h14 : pyStartsWith sep "|---" = true)
    (hsplit : rest.takeWhile hasPipe = pre ++ bad :: post)
    (hbad : (cellsOf bad).length ≠ (cellsOf (pyRstrip l)).length) :
    scan false buf (l :: sep :: rest) =
      Element.table (cellsOf (pyRstrip l)).length (cellsOf (pyRstrip l)) true
          (((pre ++ post).map cellsOf).filter
            (fun cs => cs.length == (cellsOf (pyRstrip l)).length))
        :: scan false buf (tableRest rest) := by
  rw [scan_table_branch buf l sep rest h1 h2 h3 h4 h5 h6 h7 h8 h9 h10 h11 h12 h13 h14]
  have hrows : tableRows (cellsOf (pyRstrip l)).length rest =
      ((pre ++ post).map cellsOf).filter
        (fun cs => cs.length == (cellsOf (pyRstrip l)).length) := by
    unfold tableRows
    rw [hsplit]
    simp [List.filter_cons, beq_iff_eq, hbad]
  rw [hrows]

/-- C4 witness: a three-cell row between two two-cell rows is dropped
while the header and both matching rows remain. -/
theorem tableRow_mismatch_skipped_wit :
    scan false [] ["| A | B |", "|---|---|", "| 1 | 2 |", "| 9 | 9 | 9 |", "| 4 | 5 |"] =
      [Element.table 2 ["A", "B"] true [["1", "2"], ["4", "5"]]] := by
  have h := tableRow_mismatch_skipped [] "| A | B |" "|---|---|" "| 9 | 9 | 9 |"
    ["| 1 | 2 |"] ["| 4 | 5 |"] ["| 1 | 2 |", "| 9 | 9 | 9 |", "| 4 | 5 |"]
    (by decide) (by decide) (by decide) (by decide) (by decide) (by decide) (by decide)
    (by decide) (by decide) (by decide) (by decide) (by decide) (by decide) (by decide)
    (by decide) (by decide)
  rw [h]
  decide

/-- C6 counterexample: the stripped content of `"  ---"` begins with
three hyphens, yet the scanner emits a plain paragraph carrying the
original text, not an empty paragraph, because the code tests the
rstripped line (leading whitespace defeats the rule).  The claim as
stated is therefore false at this input. -/
theorem hruleRule_leading_ws_cex :
    pyStartsWith (pyStrip "  ---") "---" = true ∧
    scan false [] ["  ---"] = [Element.para [⟨"  ---", false⟩]] ∧
    scan false [] ["  ---"] ≠ [Element.para []] := by
  decide

/-- C6 (amended): for every line, not inside a code fence and not matched
by the fence-delimiter or heading rules, whose content after
trailing-whitespace stripping begins with three hyphens (so leading
whitespace is not allowed), the scanner emits exactly one empty
paragraph and no other element for that line. -/
theorem hruleRule_rstrip_only (buf : List String) (l : String) (rest : List String)
    (h1 : pyStartsWith (pyRstrip l) "```" = false)
    (h2 : pyStartsWith (pyRstrip l) "# " = false)
    (h3 : pyStartsWith (pyRstrip l) "## " = false)
    (h4 : pyStartsWith (pyRstrip l) "### " = false)
    (h5 : pyStartsWith (pyRstrip l) "#### " = false)
    (h6 : pyStartsWith (pyRstrip l) "---" = true) :
    scan false buf (l :: rest) = Element.para [] :: scan false buf rest := by
  rw [scan_cons]
  unfold step stepLine
  simp [h1, h2, h3, h4, h5, h6]

/-- C6 witness: a horizontal-rule line with trailing spaces emits one
empty paragraph. -/
theorem hruleRule_rstrip_only_wit :
    scan false [] ["---  "] = [Element.para []] := by
  have h := hruleRule_rstrip_only [] "---  " []
    (by decide) (by decide) (by decide) (by decide) (by decide) (by decide)
  rw [h]
  decide

/-- C7 counterexample: the line `"a | b | c"` contains a pipe, does not
start with `"|---"`, matches no earlier classification rule, and its
next line does not start with `"|---"`, yet the scanner emits no element
at all for it (the elif chain already consumed it at the table guard):
the output for the two-line input is just the paragraph for `"x"`.  The
claim that such a line is emitted as a plain paragraph is therefore
false at this input. -/
theorem pipeLine_not_paragraph_cex :
    pyContainsChar "a | b | c" '|' = true ∧
    pyStartsWith "a | b | c" "|---" = false ∧
    pyStartsWith "x" "|---" = false ∧
    scan false [] ["a | b | c", "x"] = [Element.para [⟨"x", false⟩]] ∧
    Element.para [⟨"a | b | c", false⟩] ∉ scan false [] ["a | b | c", "x"] := by
  decide

/-- C7 (amended): a line containing a pipe that reaches the table rule
but is not confirmed as a table (its next line does not start with
`"|---"`, or its cell list is empty) does not fall through to the later
classification rules: it produces no output element at all and scanning
resumes at the next line. -/
theorem pipeLine_silently_dropped (buf : List String) (l : String) (rest : List String)
    (h1 : pyStartsWith (pyRstrip l) "```" = false)
    (h2 : pyStartsWith (pyRstrip l) "# " = false)
    (h3 : pyStartsWith (pyRstrip l) "## " = false)
    (h4 : pyStartsWith (pyRstrip l) "### " = false)
    (h5 : pyStartsWith (pyRstrip l) "#### " = false)
    (h6 : pyStartsWith (pyRstrip l) "---" = false)
    (h7 : pyStartsWith (pyRstrip l) "- " = false)
    (h8 : pyStartsWith (pyRstrip l) "* " = false)
    (h9 : startsDigitsDot (pyRstrip l) = false)
    (h10 : hasBoldMarker (pyRstrip l) = false)
    (h11 : pyContainsChar (pyRstrip l) '|' = true)
    (h12 : pyStartsWith (pyRstrip l) "|---" = false)
    (h13 : (!(cellsOf (pyRstrip l)).isEmpty && sepNext rest) = false) :
    scan false buf (l :: rest) = scan false buf rest := by
  rw [scan_cons]
  unfold step stepLine
  simp [h1, h2, h3, h4, h5, h6, h7, h8, h9, h10, h11, h12, h13]

/-- C7 witness: the pipe line is dropped and only the following plain
line appears in the output. -/
theorem pipeLine_silently_dropped_wit :
    scan false [] ["a | b | c", "x"] = [Element.para [⟨"x", false⟩]] := by
  have h := pipeLine_silently_dropped [] "a | b | c" ["x"]
    (by decide) (by decide) (by decide) (by decide) (by decide) (by decide) (by decide)
    (by decide) (by decide) (by decide) (by decide) (by decide) (by decide)
  rw [h]
  decide

/-- Scanner states (fence flag, code buffer, remaining lines) reachable
at a loop boundary when a run starts, as every run does, with the flag
off, an empty buffer and the full input (md-to-docx.py lines 67-70). -/
inductive Reach (init : List String) : Bool → List String → List String → Prop
  | start : Reach init false [] init
  | next (inCode : Bool) (buf : List String) (l : String) (rest : List String) :
      Reach init inCode buf (l :: rest) →
      Reach init (step inCode buf l rest).2.1 (step inCode buf l rest).2.2.1
        (step inCode buf l rest).2.2.2

/-- One scanner iteration preserves consistency of the fence flag with
the code buffer: if the buffer can only be nonempty while the flag is
set before a step, the same holds after it (the buffer is flushed and
cleared in the very step in which the flag flips off). -/
theorem step_preserves_consistency (inCode : Bool) (buf : List String) (l : String)
    (rest : List String) (h : buf ≠ [] → inCode = true) :
    (step inCode buf l rest).2.2.1 ≠ [] → (step inCode buf l rest).2.1 = true := by
  unfold step stepLine
  cases h1 : pyStartsWith (pyRstrip l) "```" with
  | true =>
    cases inCode with
    | true => intro hb; exact absurd rfl hb
    | false => intro hb; rfl
  | false =>
  cases inCode with
  | true => intro hb; rfl
  | false =>
  cases h2 : pyStartsWith (pyRstrip l) "# " with
  | true => intro hb; exact h hb
  | false =>
  cases h3 : pyStartsWith (pyRstrip l) "## " with
  | true => intro hb; exact h hb
  | false =>
  cases h4 : pyStartsWith (pyRstrip l) "### " with
  | true => intro hb; exact h hb
  | false =>
  cases h5 : pyStartsWith (pyRstrip l) "#### " with
  | true => intro hb; exact h hb
  | false =>
  cases h6 : pyStartsWith (pyRstrip l) "---" with
  | true => intro hb; exact h hb
  | false =>
  cases h7 : pyStartsWith (pyRstrip l) "- " || pyStartsWith (pyRstrip l) "* " with
  | true => intro hb; exact h hb
  | false =>
  cases h8 : startsDigitsDot (pyRstrip l) with
  | true => intro hb; exact h hb
  | false =>
  cases h9 : hasBoldMarker (pyRstrip l) with
  | true => intro hb; exact h hb
  | false =>
  cases h10 : pyContainsChar (pyRstrip l) '|' && !pyStartsWith (pyRstrip l) "|---" with
  | true =>
    cases h11 : !(cellsOf (pyRstrip l)).isEmpty && sepNext rest with
    | true => intro hb; exact h hb
    | false => intro hb; exact h hb
  | false =>
  cases h12 : !(pyStrip (pyRstrip l)).isEmpty with
  | true => intro hb; exact h hb
  | false => intro hb; exact h hb

/-- C9: in every reachable scanner state at a line boundary the fence
flag and the code buffer are mutually consistent: the buffer is nonempty
only while the flag is set, because the buffer is flushed and cleared in
the same iteration in which the flag flips off. -/
theorem fence_buffer_invariant (init : List String) (inCode : Bool)
    (buf rem : List String) (h : Reach init inCode buf rem) (hb : buf ≠ []) :
    inCode = true := by
  revert hb
  induction h with
  | start => intro hb; exact absurd rfl hb
  | next i b l rest hr ih => exact step_preserves_consistency i b l rest ih

/-- C9 witness: after scanning the opening fence of `["```", "x"]` and
then the line `"x"`, the state has buffer `["x"]` and the flag is indeed
still on. -/
theorem fence_buffer_invariant_wit :
    Reach ["```", "x"] true ["x"] [] ∧ (["x"] : List String) ≠ [] ∧ (true : Bool) = true := by
  have h0 : Reach ["```", "x"] false [] ["```", "x"] := Reach.start
  have e1 : step false [] "```" ["x"] = ([], true, [], ["x"]) := by decide
  have h1 : Reach ["```", "x"] true [] ["x"] := by
    have h := Reach.next false [] "```" ["x"] h0
    rw [e1] at h
    exact h
  have e2 : step true [] "x" [] = ([], true, ["x"], []) := by decide
  have h2 : Reach ["```", "x"] true ["x"] [] := by
    have h := Reach.next true [] "x" [] h1
    rw [e2] at h
    exact h
  exact ⟨h2, by decide, fence_buffer_invariant ["```", "x"] true ["x"] [] h2 (by decide)⟩

/-- Universal-newline translation performed by Python text-mode reading:
CRLF and lone CR become LF. -/
def univNl : List Char → List Char
  | [] => []
  | '\r' :: '\n' :: rest => '\n' :: univNl rest
  | '\r' :: rest => '\n' :: univNl rest
  | c :: rest => c :: univNl rest

/-- Helper for `pyReadLines`: split after every newline, keeping the
newline on each line; a final segment without a newline is kept only
when nonempty.  The accumulator holds the current line reversed. -/
def readLinesAux (acc : List Char) : List Char → List (List Char)
  | [] => if acc.isEmpty then [] else [acc.reverse]
  | c :: rest =>
    if c = '\n' then (acc.reverse ++ ['\n']) :: readLinesAux [] rest
    else readLinesAux (c :: acc) rest

/-- Python `f.readlines()` on the text of the input file (md-to-docx.py
line 65). -/
def pyReadLines (s : String) : List String :=
  (readLinesAux [] (univNl s.data)).map (fun cs => ⟨cs⟩)

/-- Content of a file in the file-system model: either a text file or a
saved document holding its block elements. -/
inductive FileData where
  | text (content : String)
  | docx (elements : List Element)
deriving DecidableEq, Repr

/-- Read a path in the file-system model (an association list, newest
entry first). -/
def fsRead : List (String × FileData) → String → Option FileData
  | [], _ => none
  | (p, d) :: rest, path => if p = path then some d else fsRead rest path

/-- Write a path in the file-system model. -/
def fsWrite (fs : List (String × FileData)) (path : String) (d : FileData) :
    List (String × FileData) :=
  (path, d) :: fs

/-- The conversion routine `parse_markdown_to_docx` (md-to-docx.py lines
54-162) over the file-system model: read the input text (a missing file,
or a file that is not text, raises before anything is written), scan its
lines, and only then save the document at the output path.  The returned
pair is the outcome and the resulting file system. -/
def parseMarkdownToDocx (fs : List (String × FileData)) (mdFile docxFile : String) :
    Except String Unit × List (String × FileData) :=
  match fsRead fs mdFile with
  | none => (Except.error "input unreadable", fs)
  | some (FileData.docx _) => (Except.error "input unreadable", fs)
  | some (FileData.text t) =>
      (Except.ok (), fsWrite fs docxFile (FileData.docx (scan false [] (pyReadLines t))))

/-- C8: reading a nonexistent input path fails with the input-unreadable
condition, the error propagates out of the conversion routine, and the
file system — in particular the output path's prior state or absence —
is unchanged. -/
theorem missing_input_error_preserves_fs (fs : List (String × FileData)) (inp out : String)
    (h : fsRead fs inp = none) :
    parseMarkdownToDocx fs inp out = (Except.error "input unreadable", fs) ∧
      fsRead (parseMarkdownToDocx fs inp out).2 out = fsRead fs out := by
  have hmain : parseMarkdownToDocx fs inp out = (Except.error "input unreadable", fs) := by
    unfold parseMarkdownToDocx
    rw [h]
  exact ⟨hmain, by rw [hmain]⟩

/-- C8 witness: converting the missing `"doc.md"` over a file system that
only holds an unrelated file errors out and leaves that file system
untouched. -/
theorem missing_input_error_preserves_fs_wit :
    parseMarkdownToDocx [("other.txt", FileData.text "hi")] "doc.md" "doc.docx" =
      (Except.error "input unreadable", [("other.txt", FileData.text "hi")]) ∧
    fsRead (parseMarkdownToDocx [("other.txt", FileData.text "hi")] "doc.md" "doc.docx").2
        "doc.docx" =
      fsRead [("other.txt", FileData.text "hi")] "doc.docx" :=
  missing_input_error_preserves_fs [("other.txt", FileData.text "hi")] "doc.md" "doc.docx"
    (by decide)

/-- C10 (implicit): if the input ends while the fence flag is still on
(an unterminated code fence), the accumulated code lines are silently
discarded — no code-block element, no paragraph, no error — and the run
still completes and saves the (empty) document at the output path. -/
theorem unterminated_fence_discarded (fs : List (String × FileData)) (inp out t f : String)
    (Ls : List String)
    (hread : fsRead fs inp = some (FileData.text t))
    (hlines : pyReadLines t = f :: Ls)
    (hf : pyStartsWith (pyRstrip f) "```" = true)
    (hLs : ∀ x ∈ Ls, pyStartsWith (pyRstrip x) "```" = false) :
    parseMarkdownToDocx fs inp out = (Except.ok (), fsWrite fs out (FileData.docx [])) := by
  unfold parseMarkdownToDocx
  rw [hread]
  dsimp only
  rw [hlines, scan_cons]
  unfold step stepLine
  simp only [hf, eq_self_iff_true, if_true, Bool.false_eq_true, if_false, List.nil_append]
  rw [scan_fence_no_close Ls [] hLs]

/-- C10 witness: a file holding an opening fence and one code line and no
closing fence converts successfully into a document with no elements. -/
theorem unterminated_fence_discarded_wit :
    parseMarkdownToDocx [("doc.md", FileData.text "```\ncode\n")] "doc.md" "doc.docx" =
      (Except.ok (),
        fsWrite [("doc.md", FileData.text "```\ncode\n")] "doc.docx" (FileData.docx [])) := by
  have h := unterminated_fence_discarded [("doc.md", FileData.text "```\ncode\n")]
    "doc.md" "doc.docx" "```\ncode\n" "```\n" ["code\n"]
    (by decide) (by decide) (by decide) (by decide)
  exact h

/-- Fuel-indexed body of `pyReplace`; with fuel at least the length of
the subject the fuel never runs out. -/
def pyReplaceF : Nat → List Char → List Char → List Char → List Char
  | 0, s, _, _ => s
  | fuel + 1, s, pat, rep =>
    match s with
    | [] => []
    | c :: rest =>
      if pat.isPrefixOf (c :: rest) && !pat.isEmpty then
        rep ++ pyReplaceF fuel ((c :: rest).drop pat.length) pat rep
      else c :: pyReplaceF fuel rest pat rep

/-- Python `s.replace(pat, rep)` for a nonempty pattern: every
non-overlapping occurrence is replaced, leftmost first.  Used by
md-to-docx.py line 170 with the pattern `".md"`. -/
def pyReplace (s pat rep : List Char) : List Char :=
  pyReplaceF s.length s pat rep

/-- Any sufficient amount of fuel computes the same replacement. -/
theorem pyReplaceF_congr :
    ∀ (f1 f2 : Nat) (s pat rep : List Char),
      s.length ≤ f1 → s.length ≤ f2 → pyReplaceF f1 s pat rep = pyReplaceF f2 s pat rep := by
  intro f1
  induction f1 with
  | zero =>
    intro f2 s pat rep h1 h2
    have : s = [] := List.length_eq_zero.mp (Nat.le_zero.mp h1)
    subst this
    cases f2 <;> simp [pyReplaceF]
  | succ f ih =>
    intro f2 s pat rep h1 h2
    match s with
    | [] => cases f2 <;> simp [pyReplaceF]
    | c :: rest =>
      match f2 with
      | 0 => simp at h2
      | f2' + 1 =>
        simp only [pyReplaceF, List.length_cons] at h1 h2 ⊢
        cases hg : pat.isPrefixOf (c :: rest) && !pat.isEmpty with
        | true =>
          simp only [if_true]
          have hpat : 1 ≤ pat.length := by
            have hne : pat.isEmpty = false := by
              rcases Bool.and_eq_true_iff.mp hg with ⟨-, hr⟩
              simpa using hr
            cases pat with
            | nil => simp at hne
            | cons p ps => simp
          have hd : ((c :: rest).drop pat.length).length ≤ f := by
            simp only [List.length_drop, List.length_cons]
            omega
          congr 1
          exact ih f2' _ pat rep hd (by simp only [List.length_drop, List.length_cons]; omega)
        | false =>
          simp only [Bool.false_eq_true, if_false]
          congr 1
          exact ih f2' rest pat rep (by omega) (by omega)

/-- Unfolding lemma for `pyReplace` on a nonempty subject. -/
theorem pyReplace_cons (c : Char) (rest pat rep : List Char) :
    pyReplace (c :: rest) pat rep =
      if pat.isPrefixOf (c :: rest) && !pat.isEmpty then
        rep ++ pyReplace ((c :: rest).drop pat.length) pat rep
      else c :: pyReplace rest pat rep := by
  unfold pyReplace
  simp only [List.length_cons, pyReplaceF]
  cases hg : pat.isPrefixOf (c :: rest) && !pat.isEmpty with
  | true =>
    simp only [if_true]
    have hpat : 1 ≤ pat.length := by
      have hne : pat.isEmpty = false := by
        rcases Bool.and_eq_true_iff.mp hg with ⟨-, hr⟩
        simpa using hr
      cases pat with
      | nil => simp at hne
      | cons p ps => simp
    congr 1
    exact pyReplaceF_congr rest.length ((c :: rest).drop pat.length).length _ pat rep
      (by simp only [List.length_drop, List.length_cons]; omega) (Nat.le_refl _)
  | false =>
    simp only [Bool.false_eq_true, if_false]

/-- A subject with no occurrence of the pattern is left unchanged. -/
theorem pyReplace_no_occurrence (pat rep : List Char) :
    ∀ l : List Char, containsSeq pat l = false → pyReplace l pat rep = l := by
  intro l
  induction l with
  | nil => intro h; rfl
  | cons c rest ih =>
    intro h
    simp only [containsSeq, Bool.or_eq_false_iff] at h
    obtain ⟨hp, hrest⟩ := h
    rw [pyReplace_cons]
    simp only [hp, Bool.false_and, Bool.false_eq_true, if_false]
    rw [ih hrest]

/-- A prefix test against an appended tail only depends on the first
part when the pattern fits inside it. -/
theorem isPrefixOf_append_of_le (pat : List Char) :
    ∀ (y z : List Char), pat.length ≤ y.length →
      pat.isPrefixOf (y ++ z) = pat.isPrefixOf y := by
  induction pat with
  | nil => intro y z h; simp [List.isPrefixOf]
  | cons p ps ih =>
    intro y z h
    cases y with
    | nil => simp at h
    | cons a y2 =>
      simp only [List.cons_append, List.isPrefixOf, List.append_eq]
      rw [ih y2 z (by simpa using h)]

/-- A subject whose only occurrence of `['.', 'm', 'd']` is at its very
end gets exactly that trailing occurrence replaced. -/
theorem pyReplace_trailing (rep : List Char) :
    ∀ pre : List Char, containsSeq ['.', 'm', 'd'] (pre ++ ['.', 'm']) = false →
      pyReplace (pre ++ ['.', 'm', 'd']) ['.', 'm', 'd'] rep = pre ++ rep := by
  intro pre
  induction pre with
  | nil =>
    intro h
    rw [List.nil_append, pyReplace_cons]
    have hg : ((['.', 'm', 'd'] : List Char).isPrefixOf ['.', 'm', 'd'] &&
        !(['.', 'm', 'd'] : List Char).isEmpty) = true := by decide
    simp only [hg, if_true]
    simp [pyReplace, pyReplaceF]
  | cons c pre ih =>
    intro h
    simp only [List.cons_append, containsSeq, Bool.or_eq_false_iff] at h
    obtain ⟨hp, hrest⟩ := h
    rw [List.cons_append, pyReplace_cons]
    have hsub : c :: (pre ++ ['.', 'm', 'd']) = (c :: (pre ++ ['.', 'm'])) ++ ['d'] := by
      rw [List.cons_append, List.append_assoc]
      rfl
    have hb : (['.', 'm', 'd'] : List Char).isPrefixOf (c :: (pre ++ ['.', 'm', 'd'])) = false := by
      rw [hsub, isPrefixOf_append_of_le _ _ _
        (by simp only [List.length_cons, List.length_append, List.length_nil]; omega)]
      exact hp
    simp only [hb, Bool.false_and, Bool.false_eq_true, if_false]
    rw [ih hrest]
    rfl

/-- Output-path derivation of md-to-docx.py line 170:
`input_file.replace('.md', '.docx')`. -/
def deriveOutputPath (input : String) : String :=
  ⟨pyReplace input.data ".md".data ".docx".data⟩

/-- Resolution of the optional second command-line argument
(md-to-docx.py lines 169-170): an explicit output path wins, otherwise
the path is derived from the input path. -/
def resolveOutput (input : String) : Option String → String
  | some explicit => explicit
  | none => deriveOutputPath input

/-- C5 counterexample: on the input path `"a.md.md"` the code replaces
both occurrences of `".md"`, producing `"a.docx.docx"`, whereas a
trailing-extension-only replacement would produce `"a.md.docx"`.  A
non-trailing `".md"` is therefore affected, and the claim as stated is
false at this input. -/
theorem outputPath_replaces_all_cex :
    resolveOutput "a.md.md" none = "a.docx.docx" ∧
    resolveOutput "a.md.md" none ≠ "a.md.docx" := by
  decide

/-- C5 (amended): with no explicit output argument the resolved output
path is the input path with every non-overlapping occurrence of `".md"`
(leftmost first) replaced by `".docx"`, not only a trailing extension.
In particular, a path containing no `".md"` at all is returned
unchanged, and a path whose only occurrence of `".md"` is the trailing
extension resolves to the path with that extension replaced by
`".docx"` (so `"doc.md"` still resolves to `"doc.docx"`). -/
theorem outputPath_every_occurrence :
    (∀ s : String, containsSeq ".md".data s.data = false → resolveOutput s none = s) ∧
    (∀ pre : String, containsSeq ".md".data (pre.data ++ ['.', 'm']) = false →
      resolveOutput (pre ++ ".md") none = pre ++ ".docx") := by
  have hmd : (".md".data : List Char) = ['.', 'm', 'd'] := by decide
  constructor
  · intro s h
    show deriveOutputPath s = s
    unfold deriveOutputPath
    rw [pyReplace_no_occurrence _ _ _ h]
  · intro pre h
    show deriveOutputPath (pre ++ ".md") = pre ++ ".docx"
    unfold deriveOutputPath
    have hd : (pre ++ ".md").data = pre.data ++ ['.', 'm', 'd'] := by
      rw [String.data_append, hmd]
    rw [hd, hmd, pyReplace_trailing ".docx".data pre.data (by rw [← hmd]; exact h)]
    rfl

/-- C5 witness: `"doc.md"` with no explicit output argument resolves to
`"doc.docx"`. -/
theorem outputPath_every_occurrence_wit :
    resolveOutput "doc.md" none = "doc.docx" := by
  have h := outputPath_every_occurrence.2 "doc" (by decide)
  rw [show ("doc.md" : String) = "doc" ++ ".md" from by decide,
      show ("doc.docx" : String) = "doc" ++ ".docx" from by decide]
  exact h
